import Mathlib

/-!
Verification of the chunk streaming and parallel meshing pipeline of
prismarine-viewer: a shallow embedding of the worker shard
(`src/viewer/lib/worker.js`), the per-shard block-data mirror
(`src/viewer/lib/world.js`), the dispatcher (`src/viewer/lib/worldrenderer.js`)
and the view manager (`src/viewer/lib/worldView.js`), together with theorems
settling the specification claims about them.

Modelling conventions:
- JS integers are `Int`; `Math.floor(x / 16)` on integers is `Int.fdiv x 16`;
  the JS bitwise `x & 15` on integers is `Int.emod x 16`; the JS remainder
  operator `%` (sign of the dividend) is `Int.tmod`.
- JS plain objects used as dictionaries are association lists preserving
  insertion order (`alSet` replaces in place or appends, `alRemove` deletes);
  JS `Set`s are duplicate-free lists in insertion order.
- `postMessage` traffic is an explicit list of emitted protocol messages
  (`geometry`/`sectionFinished`, the §6 protocol); debug-only messages and the
  debug timing globals (`msgSeq`, `firstChunkTime`, `firstDirtyTime`) of
  worker.js, which feed only `debug` messages, are not part of the model.
- external collaborators (prismarine-chunk column internals, the section
  mesher, three.js buffers) appear as opaque function fields / opaque payloads;
  a message handler that would throw in JS (e.g. a `chunk` message while
  `world === null`) returns `none`.
-/

namespace PViewer

/-- An integer 3d vector (the vec3 positions used throughout the source). -/
structure V3 where
  x : Int
  y : Int
  z : Int
deriving DecidableEq, Repr

/-- A section key `"x,y,z"` (coordinates all multiples of 16), as a triple. -/
abbrev Key := Int × Int × Int

/-- A column key `"x,z"`, as a pair. -/
abbrev ChunkKey := Int × Int

/-- Lookup in a JS-object-style association list (first match wins). -/
def alGet {κ α : Type} [DecidableEq κ] (k : κ) : List (κ × α) → Option α
  | [] => none
  | (k', v) :: rest => if k' = k then some v else alGet k rest

/-- JS `obj[k] = v`: replace the value in place if the key exists, else append. -/
def alSet {κ α : Type} [DecidableEq κ] (k : κ) (v : α) : List (κ × α) → List (κ × α)
  | [] => [(k, v)]
  | (k', v') :: rest => if k' = k then (k, v) :: rest else (k', v') :: alSet k v rest

/-- JS `delete obj[k]`. -/
def alRemove {κ α : Type} [DecidableEq κ] (k : κ) (l : List (κ × α)) : List (κ × α) :=
  l.filter (fun kv => kv.1 ≠ k)

/-- JS `Set.add` / setting a key of an object used as a set: no-op when the
element is already present, else append at the end. -/
def setAdd {κ : Type} [DecidableEq κ] (k : κ) (l : List κ) : List κ :=
  if k ∈ l then l else l ++ [k]

/-- JS `Set.delete` / `delete obj[k]` on an object used as a set. -/
def setRemove {κ : Type} [DecidableEq κ] (k : κ) (l : List κ) : List κ :=
  l.filter (fun k' => k' ≠ k)

/-! ### Block-data mirror: `src/viewer/lib/world.js` -/

/-- The raw block descriptor returned by the external prismarine-chunk
`column.getBlock` (its `shapes` list drives `isCube`); `tag` stands for the
rest of the descriptor's identity (name, properties, ...). -/
structure RawBlock where
  tag : Nat
  shapes : List (List Rat)
deriving DecidableEq, Repr

/-- `isCube(shapes)` of world.js: exactly one shape, equal to the full cube
`[0,0,0,1,1,1]` in its first six entries (missing entries read as `undefined`
and fail the comparison). -/
def isCube (shapes : List (List Rat)) : Bool :=
  match shapes with
  | [s] =>
    match s with
    | a :: b :: c :: d :: e :: f :: _ =>
      a == 0 && b == 0 && c == 0 && d == 1 && e == 1 && f == 1
    | _ => false
  | _ => false

/-- A memoized entry of `World.blockCache`: the raw descriptor enriched with
`isCube`, whose `position` and `biome` fields are overwritten in place on
every lookup. -/
structure CachedBlock where
  raw : RawBlock
  isCube : Bool
  position : V3
  biome : Option Nat
deriving DecidableEq, Repr

/-- A loaded chunk column. `minY`/`sections` drive the section-existence test
of worker.js; the per-block accessors of prismarine-chunk are opaque function
fields, with `stateOverrides` recording `setBlockStateId` writes. -/
structure Column where
  minY : Option Int
  sections : List Bool
  baseStateId : V3 → Nat
  stateOverrides : List (V3 × Nat)
  getBlockRaw : V3 → RawBlock
  getBiome : V3 → Nat

/-- prismarine-chunk `column.getBlockStateId` after any recorded writes. -/
def Column.getBlockStateId (c : Column) (p : V3) : Nat :=
  (alGet p c.stateOverrides).getD (c.baseStateId p)

/-- prismarine-chunk `column.setBlockStateId` (in-place write, modelled
functionally). -/
def Column.setBlockStateId (c : Column) (p : V3) (sid : Nat) : Column :=
  { c with stateOverrides := alSet p sid c.stateOverrides }

/-- The worker's section-existence test
`chunk.sections[Math.floor(y/16) - (chunk.minY !== undefined ?
Math.floor(chunk.minY/16) : 0)]`: a negative or out-of-range index reads
`undefined`, which is falsy. -/
def Column.hasSection (c : Column) (y : Int) : Bool :=
  let idx : Int := y.fdiv 16 - (match c.minY with | some m => m.fdiv 16 | none => 0)
  if 0 ≤ idx then c.sections.getD idx.toNat false else false

/-- The `World` of world.js: loaded columns, the block-descriptor cache keyed
by block-state id, and the (external, read-only) mcData biome table. -/
structure World where
  columns : List (ChunkKey × Column)
  blockCache : List (Nat × CachedBlock)
  biomeCache : Nat → Option Nat

/-- `new World(version)`: empty columns and cache; the biome table comes from
the external mcData for that version. -/
def World.init (biomes : Nat → Option Nat) : World :=
  { columns := [], blockCache := [], biomeCache := biomes }

/-- `World.addColumn` with the payload already deserialized into a `Column`
(the string / wrapped-json / buffer branches of world.js all feed the external
prismarine-chunk deserializer before installing the result). -/
def World.addColumn (w : World) (x z : Int) (c : Column) : World :=
  { w with columns := alSet (x, z) c w.columns }

/-- `World.removeColumn`. -/
def World.removeColumn (w : World) (x z : Int) : World :=
  { w with columns := alRemove (x, z) w.columns }

/-- `World.getColumn`. -/
def World.getColumn (w : World) (x z : Int) : Option Column :=
  alGet (x, z) w.columns

/-- The column key owning a position:
`columnKey(Math.floor(pos.x/16)*16, Math.floor(pos.z/16)*16)`. -/
def colKeyOf (pos : V3) : ChunkKey :=
  (16 * (pos.x.fdiv 16), 16 * (pos.z.fdiv 16))

/-- `posInChunk`: floor the position and mask x and z to the low 4 bits
(JS `x &= 15`, i.e. `emod 16`); y is kept. -/
def posInChunk (pos : V3) : V3 :=
  { x := pos.x.emod 16, y := pos.y, z := pos.z.emod 16 }

/-- `World.setBlockStateId` of world.js: failure (`false`) when the owning
column is not loaded, otherwise an in-place write. -/
def World.setBlockStateId (w : World) (pos : V3) (sid : Nat) : World × Bool :=
  match alGet (colKeyOf pos) w.columns with
  | none => (w, false)
  | some col =>
    ({ w with columns := alSet (colKeyOf pos) (col.setBlockStateId (posInChunk pos) sid) w.columns },
     true)

/-- `World.getBlock` of world.js: `null` when the owning column is not loaded;
otherwise the memoized descriptor for the block-state id at the local
coordinate (created on first sight), whose `position` and `biome` fields are
overwritten in place — the updated entry is stored back in the cache, and the
biome falls back to `biomeCache[1]` when the raw biome index is unmapped.
The JS mutation of the shared cache entry is modelled by returning the updated
`World` alongside the result. -/
def World.getBlock (w : World) (pos : V3) : Option CachedBlock × World :=
  match alGet (colKeyOf pos) w.columns with
  | none => (none, w)
  | some col =>
    let locIn := posInChunk pos
    let sid := col.getBlockStateId locIn
    let entry : CachedBlock :=
      match alGet sid w.blockCache with
      | some e => e
      | none =>
        let raw := col.getBlockRaw locIn
        { raw := raw, isCube := isCube raw.shapes, position := ⟨0, 0, 0⟩, biome := none }
    let biomeVal : Option Nat :=
      match w.biomeCache (col.getBiome locIn) with
      | some v => some v
      | none => w.biomeCache 1
    let entry' := { entry with position := pos, biome := biomeVal }
    (some entry', { w with blockCache := alSet sid entry' w.blockCache })

/-! ### Mesh worker shard: `src/viewer/lib/worker.js` -/

/-- The record parked in `pendingSections[key]`: `{ x, y, z, chunkKey }`. -/
structure PendingInfo where
  x : Int
  y : Int
  z : Int
  chunkKey : ChunkKey
deriving DecidableEq, Repr

/-- Shard-to-controller protocol messages (§6): `geometry{key,...}` with the
buffer payload left opaque, and `sectionFinished{key}`. -/
inductive WMsg where
  | geometry (k : Key)
  | sectionFinished (k : Key)
deriving DecidableEq, Repr

/-- The worker shard's module-level state: `world`, `blocksStates` (only its
nullness matters to the control flow), `dirtySections` (truthy values only, so
a key set) and `pendingSections`. -/
structure WState where
  world : Option World
  blocksStates : Bool
  dirty : List Key
  pending : List (Key × PendingInfo)

/-- The fresh worker state (`world = null`, `blocksStates = null`, `{}`, `{}`). -/
def WState.start : WState :=
  { world := none, blocksStates := false, dirty := [], pending := [] }

/-- The section base `(Math.floor(c/16)*16)` of each coordinate (the section
key computed at the top of the worker's `setSectionDirty`). -/
def sectionOf (pos : V3) : Key :=
  (16 * (pos.x.fdiv 16), 16 * (pos.y.fdiv 16), 16 * (pos.z.fdiv 16))

/-- `setSectionDirty(pos, value)` of worker.js. `value=false` clears both the
dirty and the pending entry and emits `sectionFinished`; `value=true` marks
dirty when the owning column is loaded and has a section at that slice, and
otherwise parks the key in `pendingSections` (leaving `dirtySections`
untouched) without emitting anything. -/
def wSetSectionDirty (st : WState) (pos : V3) (value : Bool) : WState × List WMsg :=
  let x := 16 * (pos.x.fdiv 16)
  let y := 16 * (pos.y.fdiv 16)
  let z := 16 * (pos.z.fdiv 16)
  let key : Key := (x, y, z)
  let chunk : Option Column :=
    match st.world with
    | some w => w.getColumn x z
    | none => none
  if value = false then
    ({ st with dirty := setRemove key st.dirty, pending := alRemove key st.pending },
     [WMsg.sectionFinished key])
  else
    match chunk with
    | some c =>
      if c.hasSection y then
        ({ st with dirty := setAdd key st.dirty, pending := alRemove key st.pending }, [])
      else
        ({ st with pending := alSet key ⟨x, y, z, (x, z)⟩ st.pending }, [])
    | none =>
      ({ st with pending := alSet key ⟨x, y, z, (x, z)⟩ st.pending }, [])

/-- One entry of the `processPendingSectionsForChunk` loop body. -/
def processPendingEntry (ck : ChunkKey) (acc : WState × List WMsg) (kv : Key × PendingInfo) :
    WState × List WMsg :=
  let (s, ms) := acc
  if kv.2.chunkKey = ck then
    let chunk : Option Column :=
      match s.world with
      | some w => w.getColumn kv.2.x kv.2.z
      | none => none
    match chunk with
    | some c =>
      if c.hasSection kv.2.y then
        ({ s with dirty := setAdd kv.1 s.dirty, pending := alRemove kv.1 s.pending }, ms)
      else
        ({ s with pending := alRemove kv.1 s.pending }, ms ++ [WMsg.sectionFinished kv.1])
    | none =>
      ({ s with pending := alRemove kv.1 s.pending }, ms ++ [WMsg.sectionFinished kv.1])
  else acc

/-- `processPendingSectionsForChunk(chunkX, chunkZ)` of worker.js: iterate over
a snapshot of `pendingSections`; every entry for this chunk is either promoted
to dirty (section present) or resolved with `sectionFinished`, and deleted
from pending in both cases. -/
def processPendingSectionsForChunk (st : WState) (cx cz : Int) : WState × List WMsg :=
  st.pending.foldl (processPendingEntry (cx, cz)) (st, [])

/-- One iteration of the tick loop body for a dirty key. -/
def tickEntry (acc : WState × List WMsg) (key : Key) : WState × List WMsg :=
  let (s, ms) := acc
  let chunk : Option Column :=
    match s.world with
    | some w => w.getColumn key.1 key.2.2
    | none => none
  match chunk with
  | some c =>
    if c.hasSection key.2.1 then
      ({ s with dirty := setRemove key s.dirty },
       ms ++ [WMsg.geometry key, WMsg.sectionFinished key])
    else (s, ms ++ [WMsg.sectionFinished key])
  | none => (s, ms ++ [WMsg.sectionFinished key])

/-- The worker's `setInterval` tick: a no-op while `world` or `blocksStates`
is null; otherwise, over a snapshot of the dirty keys, mesh-and-finish keys
whose column is present with a section at that slice (removing them from
dirty), and emit only `sectionFinished` — without removing the key from
dirty — when the column or section is missing. The external
`getSectionGeometry` call is the opaque payload of the `geometry` message. -/
def tick (st : WState) : WState × List WMsg :=
  match st.world with
  | none => (st, [])
  | some _ =>
    if st.blocksStates = false then (st, [])
    else st.dirty.foldl tickEntry (st, [])

/-- Controller-to-shard protocol messages (§6), with chunk payloads already
deserialized (`version` carries the external mcData biome table the new
`World` is built over). -/
inductive InMsg where
  | version (biomes : Nat → Option Nat)
  | blockStates
  | dirty (x y z : Int) (value : Bool)
  | chunk (x z : Int) (col : Column)
  | unloadChunk (x z : Int)
  | blockUpdate (x y z : Int) (stateId : Nat)
  | reset

/-- The worker's `onmessage` handler. `none` models an uncaught throw (a
`chunk`, `unloadChunk` or `blockUpdate` message arriving while
`world === null` dereferences null in the JS). Note that `reset` nulls
`world` and `blocksStates` but leaves `dirtySections`/`pendingSections`
untouched, as the source does. -/
def wstep (st : WState) (m : InMsg) : Option (WState × List WMsg) :=
  match m with
  | .version biomes => some ({ st with world := some (World.init biomes) }, [])
  | .blockStates => some ({ st with blocksStates := true }, [])
  | .dirty x y z v => some (wSetSectionDirty st ⟨x, y, z⟩ v)
  | .chunk x z col =>
    match st.world with
    | some w =>
      let st1 := { st with world := some (w.addColumn x z col) }
      some (processPendingSectionsForChunk st1 x z)
    | none => none
  | .unloadChunk x z =>
    match st.world with
    | some w => some ({ st with world := some (w.removeColumn x z) }, [])
    | none => none
  | .blockUpdate x y z sid =>
    match st.world with
    | some w =>
      let (w', _ok) := w.setBlockStateId ⟨x, y, z⟩ sid
      some ({ st with world := some w' }, [])
    | none => none
  | .reset => some ({ st with world := none, blocksStates := false }, [])

/-- An event on a shard: an incoming message, or a timer tick firing between
message tasks. -/
inductive WEvent where
  | msg (m : InMsg)
  | tickFire

/-- Process one event. -/
def wstepEv (st : WState) (e : WEvent) : Option (WState × List WMsg) :=
  match e with
  | .msg m => wstep st m
  | .tickFire => some (tick st)

/-- Run a shard over a sequence of events, accumulating the emitted protocol
messages; `none` once any handler would have thrown. -/
def wrunEv (st : WState) : List WEvent → Option (WState × List WMsg)
  | [] => some (st, [])
  | e :: es =>
    match wstepEv st e with
    | none => none
    | some (st1, ms1) =>
      match wrunEv st1 es with
      | none => none
      | some (st2, ms2) => some (st2, ms1 ++ ms2)

/-! ### Derived predicates of the worker control flow -/

/-- The `chunk && chunk.sections[...]` test of the worker's `setSectionDirty`
as a predicate of the state: the column owning `pos` is loaded on this shard
and has a (truthy) section at the key's vertical slice. -/
def sectionReady (st : WState) (pos : V3) : Bool :=
  match st.world with
  | some w =>
    match w.getColumn (16 * (pos.x.fdiv 16)) (16 * (pos.z.fdiv 16)) with
    | some c => c.hasSection (16 * (pos.y.fdiv 16))
    | none => false
  | none => false

/-- The record `setSectionDirty` parks in `pendingSections`. -/
def pendInfoOf (pos : V3) : PendingInfo :=
  { x := 16 * (pos.x.fdiv 16), y := 16 * (pos.y.fdiv 16), z := 16 * (pos.z.fdiv 16),
    chunkKey := (16 * (pos.x.fdiv 16), 16 * (pos.z.fdiv 16)) }

/-- The test `processPendingSectionsForChunk` applies to a pending record:
the column at the record's coordinates is loaded and has a section at the
record's vertical slice. -/
def pendReady (w : Option World) (info : PendingInfo) : Bool :=
  match w with
  | some w' =>
    match w'.getColumn info.x info.z with
    | some c => c.hasSection info.y
    | none => false
  | none => false

/-- The tick's per-key test: the column owning the key is loaded and has a
section at the key's vertical slice. -/
def tickReady (w : Option World) (k : Key) : Bool :=
  match w with
  | some w' =>
    match w'.getColumn k.1 k.2.2 with
    | some c => c.hasSection k.2.1
    | none => false
  | none => false

/-- The protocol messages one dirty key contributes to a tick pass. -/
def tickKeyMsgs (w : Option World) (k : Key) : List WMsg :=
  if tickReady w k then [WMsg.geometry k, WMsg.sectionFinished k]
  else [WMsg.sectionFinished k]

/-! ### Dispatcher: `src/viewer/lib/worldrenderer.js` -/

/-- The `mod(x, n) = ((x % n) + n) % n` helper of worldrenderer.js, with the
JS remainder operator (sign of the dividend) being `Int.tmod`. -/
def jsmod (x n : Int) : Int :=
  (x.tmod n + n).tmod n

/-- The deterministic spatial hash of `WorldRenderer.setSectionDirty`:
`mod(⌊x/16⌋ + ⌊y/16⌋ + ⌊z/16⌋, numWorkers)`. -/
def workerHash (pos : V3) (n : Nat) : Int :=
  jsmod (pos.x.fdiv 16 + pos.y.fdiv 16 + pos.z.fdiv 16) (n : Int)

/-- The `dirty{x,y,z,value}` instruction sent to a shard (raw coordinates are
forwarded; the shard re-floors them). -/
structure DirtyMsg where
  x : Int
  y : Int
  z : Int
  value : Bool
deriving DecidableEq, Repr

/-- Controller-side dispatcher state: the displayed-mesh table (mesh identity
as an opaque `Nat`), the loaded-chunks set, the `OutstandingSet`, and the
worker count fixed at construction. -/
structure RState where
  numWorkers : Nat
  sectionMeshs : List (Key × Nat)
  loadedChunks : List ChunkKey
  sectionsOutstanding : List Key
  active : Bool

/-- `WorldRenderer.setSectionDirty(pos, value)`: posts one dirty instruction
to the single worker selected by the spatial hash, and adds the section key
to `sectionsOutstanding` (the source does this on every call, for both
values of `value`). Returns the updated state, the target worker index and
the message posted. -/
def rSetSectionDirty (st : RState) (pos : V3) (value : Bool) : RState × Nat × DirtyMsg :=
  ({ st with sectionsOutstanding := setAdd (sectionOf pos) st.sectionsOutstanding },
   (workerHash pos st.numWorkers).toNat,
   { x := pos.x, y := pos.y, z := pos.z, value := value })

/-- Actions on the three.js scene, with meshes as opaque identities:
`scene.remove`, `dispose3`, `scene.add`. -/
inductive SceneAct where
  | remove (m : Nat)
  | dispose (m : Nat)
  | add (m : Nat)
deriving DecidableEq, Repr

/-- The `geometry` branch of the dispatcher's `worker.onmessage`: an existing
mesh for the key is removed from the scene, disposed and dropped from the
table first; then, only if the key's column is still in `loadedChunks`
(the check `loadedChunks[chunkCoords[0] + ',' + chunkCoords[2]]`), a new mesh
built from the payload is installed and added to the scene — otherwise the
payload is discarded. -/
def onGeometry (st : RState) (key : Key) (newMesh : Nat) : RState × List SceneAct :=
  let cleaned :=
    match alGet key st.sectionMeshs with
    | some m => ({ st with sectionMeshs := alRemove key st.sectionMeshs },
                 [SceneAct.remove m, SceneAct.dispose m])
    | none => (st, ([] : List SceneAct))
  if (key.1, key.2.2) ∈ cleaned.1.loadedChunks then
    ({ cleaned.1 with sectionMeshs := alSet key newMesh cleaned.1.sectionMeshs },
     cleaned.2 ++ [SceneAct.add newMesh])
  else cleaned

/-- The vertical slices `y = -64, -48, ..., 304` walked by `addColumn` and
`removeColumn` (`for (let y = -64; y < 320; y += 16)`). -/
def columnYs : List Int :=
  (List.range 24).map (fun i => -64 + 16 * (i : Int))

/-- The `removeColumn` loop body for one vertical slice: cancel the section on
its shard (`setSectionDirty(..., false)`, which also touches
`sectionsOutstanding`), then remove from the scene and dispose any displayed
mesh for that key and delete the table entry. -/
def removeColumnSlice (x z : Int) (acc : RState × List SceneAct) (y : Int) :
    RState × List SceneAct :=
  let (s, acts) := acc
  let s1 := (rSetSectionDirty s ⟨x, y, z⟩ false).1
  let key : Key := (x, y, z)
  match alGet key s1.sectionMeshs with
  | some m =>
    ({ s1 with sectionMeshs := alRemove key s1.sectionMeshs },
     acts ++ [SceneAct.remove m, SceneAct.dispose m])
  | none => ({ s1 with sectionMeshs := alRemove key s1.sectionMeshs }, acts)

/-- `WorldRenderer.removeColumn(x, z)`: drop the column from `loadedChunks`
(the `unloadChunk` broadcast to the workers is not part of the scene-action
log) and process every vertical slice. -/
def removeColumn (st : RState) (x z : Int) : RState × List SceneAct :=
  columnYs.foldl (removeColumnSlice x z)
    ({ st with loadedChunks := setRemove (x, z) st.loadedChunks }, [])

/-- `WorldRenderer.resetWorld()`: deactivate, remove every displayed mesh from
the scene (the source calls `scene.remove` only — no `dispose3`), clear the
mesh table, and broadcast `reset` to the workers (not part of the scene-action
log). `loadedChunks` and `sectionsOutstanding` are left untouched, as in the
source. -/
def resetWorld (st : RState) : RState × List SceneAct :=
  ({ st with active := false, sectionMeshs := [] },
   st.sectionMeshs.map (fun kv => SceneAct.remove kv.2))

/-! ### `waitForChunksToRender` (worldrenderer.js lines 238-253)

One pending promise is a `Waiter`: `listening` says whether its
`updateHandler` is currently registered on `renderUpdateEmitter`, `resolved`
whether `resolve()` has run. Each `update` emission is an event carrying
whether `sectionsOutstanding` is empty at that moment. -/

structure Waiter where
  resolved : Bool
  listening : Bool
deriving DecidableEq, Repr

/-- Calling `waitForChunksToRender()`: if the outstanding set is empty the
promise resolves immediately (one `resolve()` call, no listener registered);
otherwise an `updateHandler` listener is registered. -/
def waitCall (outEmpty : Bool) : Waiter × Nat :=
  if outEmpty then ({ resolved := true, listening := false }, 1)
  else ({ resolved := false, listening := true }, 0)

/-- One `update` emission as seen by this waiter: a registered handler checks
`sectionsOutstanding.size === 0`, and on success removes itself and resolves;
an unregistered handler sees nothing. -/
def waitStep (w : Waiter) (outEmpty : Bool) : Waiter × Nat :=
  if w.listening && outEmpty then ({ resolved := true, listening := false }, 1)
  else (w, 0)

/-- Run a waiter over a sequence of `update` emissions, counting `resolve()`
calls. -/
def waitRun (w : Waiter) : List Bool → Waiter × Nat
  | [] => (w, 0)
  | e :: es =>
    let s1 := waitStep w e
    let s2 := waitRun s1.1 es
    (s2.1, s1.2 + s2.2)

/-! ### View manager: `src/viewer/lib/worldView.js` -/

/-- The tracked state of a `WorldView`: last position, view distance (in
chunks) and the loaded-chunk set keyed by `"pos.x,pos.z"`. -/
structure WVState where
  lastPos : V3
  viewDistance : Int
  loadedChunks : List ChunkKey

/-- Modelled from the spec: `chunkPos` lives in `simpleUtils`, which is not
under `src/`; §4.2 describes it as computing "the chunk-grid cell" of a world
position, i.e. the per-axis chunk coordinates `⌊x/16⌋, ⌊z/16⌋`. -/
def chunkPos (p : V3) : Int × Int :=
  (p.x.fdiv 16, p.z.fdiv 16)

/-- Events emitted by `WorldView.loadChunk`: the `loadChunk` event carrying
the serialized column, and block-entity events (payload opaque). -/
inductive WVEvent where
  | loadChunk (x z : Int) (chunk : String)
  | blockEntity (tag : Nat)
deriving DecidableEq, Repr

/-- `WorldView.loadChunk(pos)`: the distance guard compares the chunk-grid
distance of `pos` to the current `lastPos` strictly against `viewDistance` on
both axes; inside the guard the world data source is queried, and on a
non-null column the `loadChunk` event is emitted, the coordinate recorded,
and the chunk's block entities emitted (that classification walk, which needs
`world.getBlock`, is the opaque `emitBE`). The last component reports whether
the data source was queried. -/
def wvLoadChunk (st : WVState) (getColumnAt : V3 → Option String)
    (emitBE : Int → Int → String → List WVEvent) (pos : V3) :
    WVState × List WVEvent × Bool :=
  let botX := (chunkPos st.lastPos).1
  let botZ := (chunkPos st.lastPos).2
  let dx : Int := |botX - pos.x.fdiv 16|
  let dz : Int := |botZ - pos.z.fdiv 16|
  if dx < st.viewDistance ∧ dz < st.viewDistance then
    match getColumnAt pos with
    | some col =>
      ({ st with loadedChunks := setAdd (pos.x, pos.z) st.loadedChunks },
       WVEvent.loadChunk pos.x pos.z col :: emitBE pos.x pos.z col, true)
    | none => (st, [], true)
  else (st, [], false)

/-! ### Concrete fixtures used in counterexamples and witnesses -/

/-- An empty mcData biome table. -/
def bi0 : Nat → Option Nat := fun _ => none

/-- A column whose only (truthy) section is the slice `y ∈ [0, 16)`
(`minY = 0`, one section), with trivial block data. -/
def col0 : Column :=
  { minY := some 0, sections := [true], baseStateId := fun _ => 0,
    stateOverrides := [], getBlockRaw := fun _ => { tag := 0, shapes := [] },
    getBiome := fun _ => 0 }

/-- Mark a section dirty while its column is loaded, unload the column, then
mark the same section dirty again. -/
def overlapEvents : List WEvent :=
  [WEvent.msg (InMsg.version bi0), WEvent.msg (InMsg.chunk 0 0 col0),
   WEvent.msg (InMsg.dirty 0 0 0 true), WEvent.msg (InMsg.unloadChunk 0 0),
   WEvent.msg (InMsg.dirty 0 0 0 true)]

/-- Mark a section dirty, unload its column, then let the tick fire twice. -/
def dupFinishEvents : List WEvent :=
  [WEvent.msg (InMsg.version bi0), WEvent.msg InMsg.blockStates,
   WEvent.msg (InMsg.chunk 0 0 col0), WEvent.msg (InMsg.dirty 0 0 0 true),
   WEvent.msg (InMsg.unloadChunk 0 0), WEvent.tickFire, WEvent.tickFire]

/-- Dirty-before-data for the structurally empty slice `y = 64` of `col0`. -/
def orderAEvents : List WEvent :=
  [WEvent.msg (InMsg.version bi0), WEvent.msg InMsg.blockStates,
   WEvent.msg (InMsg.dirty 0 64 0 true), WEvent.msg (InMsg.chunk 0 0 col0),
   WEvent.tickFire]

/-- Data-before-dirty for the structurally empty slice `y = 64` of `col0`. -/
def orderBEvents : List WEvent :=
  [WEvent.msg (InMsg.version bi0), WEvent.msg InMsg.blockStates,
   WEvent.msg (InMsg.chunk 0 0 col0), WEvent.msg (InMsg.dirty 0 64 0 true),
   WEvent.tickFire]

/-- An initialized worker state with empty dirty and pending sets. -/
def wst0 : WState :=
  { world := some (World.init bi0), blocksStates := true, dirty := [], pending := [] }

/-- An initialized worker state with one pending entry for chunk `(0,0)`. -/
def wstP : WState :=
  { world := some (World.init bi0), blocksStates := true, dirty := [],
    pending := [((0, 0, 0), { x := 0, y := 0, z := 0, chunkKey := (0, 0) })] }

/-- An initialized worker state with section `(0,0,0)` dirty but no column
loaded. -/
def wstD : WState :=
  { world := some (World.init bi0), blocksStates := true, dirty := [(0, 0, 0)],
    pending := [] }

/-- A two-worker dispatcher with nothing loaded. -/
def rs0 : RState :=
  { numWorkers := 2, sectionMeshs := [], loadedChunks := [], sectionsOutstanding := [],
    active := true }

/-- A two-worker dispatcher displaying mesh `5` for section `(0,0,0)` of the
loaded column `(0,0)`. -/
def rsMesh : RState :=
  { numWorkers := 2, sectionMeshs := [((0, 0, 0), 5)], loadedChunks := [(0, 0)],
    sectionsOutstanding := [], active := true }

/-- A column whose block at any local position has state id `7`, a full-cube
shape, and raw biome index `5`. -/
def col9 : Column :=
  { minY := some 0, sections := [true], baseStateId := fun _ => 7,
    stateOverrides := [], getBlockRaw := fun _ => { tag := 3, shapes := [[0, 0, 0, 1, 1, 1]] },
    getBiome := fun _ => 5 }

/-- A world holding `col9` at `(0,0)`, whose biome table maps only index `1`
(to `77`) — so the raw biome index `5` of `col9` is unmapped. -/
def wld9 : World :=
  { columns := [((0, 0), col9)], blockCache := [],
    biomeCache := fun i => if i = 1 then some 77 else none }

/-- A view-manager state at the origin with view distance 2. -/
def wv0 : WVState :=
  { lastPos := ⟨0, 0, 0⟩, viewDistance := 2, loadedChunks := [] }

/-! ### Association-list and set lemmas -/

theorem alGet_alSet_self {κ α : Type} [DecidableEq κ] (k : κ) (v : α) (l : List (κ × α)) :
    alGet k (alSet k v l) = some v := by
  induction l with
  | nil => simp [alGet, alSet]
  | cons hd tl ih =>
    by_cases h : hd.1 = k
    · simp [alGet, alSet, h]
    · simp [alGet, alSet, h, ih]

theorem alGet_alSet_ne {κ α : Type} [DecidableEq κ] (k j : κ) (v : α) (l : List (κ × α))
    (h : j ≠ k) : alGet k (alSet j v l) = alGet k l := by
  induction l with
  | nil => simp [alGet, alSet, h]
  | cons hd tl ih =>
    by_cases h1 : hd.1 = j
    · simp [alGet, alSet, h1, h]
    · simp only [alSet, if_neg h1, alGet]
      by_cases h2 : hd.1 = k <;> simp [h2, ih]

theorem alGet_alRemove {κ α : Type} [DecidableEq κ] (k j : κ) (l : List (κ × α)) :
    alGet k (alRemove j l) = if j = k then none else alGet k l := by
  induction l with
  | nil => simp [alGet, alRemove]
  | cons hd tl ih =>
    by_cases h1 : hd.1 = j
    · have hstep : alRemove j (hd :: tl) = alRemove j tl := by
        simp [alRemove, List.filter_cons, h1]
      rw [hstep, ih]
      by_cases h2 : j = k
      · simp [h2]
      · have h3 : hd.1 ≠ k := by rw [h1]; exact h2
        simp [alGet, h3]
    · have hstep : alRemove j (hd :: tl) = hd :: alRemove j tl := by
        simp [alRemove, List.filter_cons, h1]
      rw [hstep]
      by_cases h2 : hd.1 = k
      · have h3 : ¬ j = k := fun hj => h1 (h2.trans hj.symm)
        simp [alGet, h2, h3]
      · simp [alGet, h2, ih]

theorem alGet_alRemove_self {κ α : Type} [DecidableEq κ] (k : κ) (l : List (κ × α)) :
    alGet k (alRemove k l) = none := by
  simp [alGet_alRemove]

theorem alGet_alRemove_ne {κ α : Type} [DecidableEq κ] {k j : κ} (l : List (κ × α))
    (h : j ≠ k) : alGet k (alRemove j l) = alGet k l := by
  simp [alGet_alRemove, h]

theorem mem_setAdd_self {κ : Type} [DecidableEq κ] (k : κ) (l : List κ) :
    k ∈ setAdd k l := by
  unfold setAdd
  by_cases h : k ∈ l <;> simp [h]

theorem mem_setAdd_of_mem {κ : Type} [DecidableEq κ] {k j : κ} {l : List κ}
    (h : k ∈ l) : k ∈ setAdd j l := by
  unfold setAdd
  by_cases hj : j ∈ l <;> simp [hj, h]

theorem not_mem_setRemove_self {κ : Type} [DecidableEq κ] (k : κ) (l : List κ) :
    k ∉ setRemove k l := by
  simp [setRemove, List.mem_filter]

theorem mem_setRemove_of_mem_ne {κ : Type} [DecidableEq κ] {k j : κ} {l : List κ}
    (h : k ∈ l) (hne : k ≠ j) : k ∈ setRemove j l := by
  simp [setRemove, List.mem_filter, h, hne]

theorem not_mem_setRemove_of_not_mem {κ : Type} [DecidableEq κ] {k j : κ} {l : List κ}
    (h : k ∉ l) : k ∉ setRemove j l := by
  simp only [setRemove, List.mem_filter]
  intro hc
  exact h hc.1

theorem not_mem_setAdd_of_ne {κ : Type} [DecidableEq κ] {k j : κ} {l : List κ}
    (h : k ∉ l) (hne : k ≠ j) : k ∉ setAdd j l := by
  unfold setAdd
  by_cases hj : j ∈ l
  · simp [hj, h]
  · simp [hj, h, hne]

/-! ### Arithmetic lemmas for the spatial hash -/

/-- For a positive modulus, the JS double-remainder normalization
`((x % n) + n) % n` agrees with the mathematical (Euclidean) mod. -/
theorem jsmod_eq_emod (x n : Int) (hn : 0 < n) : jsmod x n = x.emod n := by
  have hlow : -n ≤ x.tmod n := by
    rcases le_or_lt 0 x with hx | hx
    · have := Int.tmod_eq_emod hx hn.le
      have h2 := Int.emod_nonneg x (by omega : n ≠ 0)
      omega
    · have h1 : x.tmod n = -((-x).tmod n) := by
        simp [Int.tmod_def, Int.neg_tdiv]; ring
      have h2 : (-x).tmod n = (-x) % n := Int.tmod_eq_emod (by omega) hn.le
      have h3 : (-x) % n < n := Int.emod_lt_of_pos (-x) hn
      omega
  have hA : (0 : Int) ≤ x.tmod n + n := by omega
  unfold jsmod
  rw [Int.tmod_eq_emod hA hn.le, Int.add_emod_self, Int.tmod_def, Int.sub_emod,
    Int.mul_emod_right]
  simp [Int.sub_emod]
  rfl

theorem jsmod_nonneg_lt (x n : Int) (hn : 0 < n) : 0 ≤ jsmod x n ∧ jsmod x n < n := by
  rw [jsmod_eq_emod x n hn]
  exact ⟨Int.emod_nonneg x (by omega), Int.emod_lt_of_pos x hn⟩

/-! ### Worker characterization lemmas -/

theorem wSSD_cancel (st : WState) (pos : V3) :
    wSetSectionDirty st pos false =
      ({ st with dirty := setRemove (sectionOf pos) st.dirty,
                 pending := alRemove (sectionOf pos) st.pending },
       [WMsg.sectionFinished (sectionOf pos)]) := by
  rfl

theorem wSSD_true_eq (st : WState) (pos : V3) :
    wSetSectionDirty st pos true =
      if sectionReady st pos then
        ({ st with dirty := setAdd (sectionOf pos) st.dirty,
                   pending := alRemove (sectionOf pos) st.pending }, [])
      else
        ({ st with pending := alSet (sectionOf pos) (pendInfoOf pos) st.pending }, []) := by
  unfold wSetSectionDirty sectionReady sectionOf pendInfoOf
  cases hw : st.world with
  | none => simp
  | some w =>
    cases hc : w.getColumn (16 * (pos.x.fdiv 16)) (16 * (pos.z.fdiv 16)) with
    | none => simp [hc]
    | some c =>
      by_cases hs : c.hasSection (16 * (pos.y.fdiv 16)) <;> simp [hc, hs]

theorem ppEntry_eq (ck : ChunkKey) (s : WState) (ms : List WMsg) (kv : Key × PendingInfo) :
    processPendingEntry ck (s, ms) kv =
      if kv.2.chunkKey = ck then
        (if pendReady s.world kv.2 then
          ({ s with dirty := setAdd kv.1 s.dirty, pending := alRemove kv.1 s.pending }, ms)
        else
          ({ s with pending := alRemove kv.1 s.pending }, ms ++ [WMsg.sectionFinished kv.1]))
      else (s, ms) := by
  unfold processPendingEntry pendReady
  by_cases hck : kv.2.chunkKey = ck
  · cases hw : s.world with
    | none => simp [hck, hw]
    | some w =>
      cases hc : w.getColumn kv.2.x kv.2.z with
      | none => simp [hck, hw, hc]
      | some c => by_cases hs : c.hasSection kv.2.y <;> simp [hck, hw, hc, hs]
  · simp [hck]

theorem tickEntry_eq (s : WState) (ms : List WMsg) (key : Key) :
    tickEntry (s, ms) key =
      if tickReady s.world key then
        ({ s with dirty := setRemove key s.dirty },
         ms ++ [WMsg.geometry key, WMsg.sectionFinished key])
      else (s, ms ++ [WMsg.sectionFinished key]) := by
  unfold tickEntry tickReady
  cases hw : s.world with
  | none => simp [hw]
  | some w =>
    cases hc : w.getColumn key.1 key.2.2 with
    | none => simp [hw, hc]
    | some c => by_cases hs : c.hasSection key.2.1 <;> simp [hw, hc, hs]

/-! ### Fold lemmas for `processPendingSectionsForChunk` -/

theorem ppGo_world (ck : ChunkKey) (l : List (Key × PendingInfo)) (s : WState)
    (ms : List WMsg) : (l.foldl (processPendingEntry ck) (s, ms)).1.world = s.world := by
  induction l generalizing s ms with
  | nil => rfl
  | cons hd tl ih =>
    simp only [List.foldl_cons, ppEntry_eq]
    by_cases hck : hd.2.chunkKey = ck
    · by_cases hr : pendReady s.world hd.2 <;> simp [hck, hr, ih]
    · simp [hck, ih]

theorem ppGo_pending_none (ck : ChunkKey) (l : List (Key × PendingInfo)) (s : WState)
    (ms : List WMsg) (K : Key) (h : alGet K s.pending = none) :
    alGet K (l.foldl (processPendingEntry ck) (s, ms)).1.pending = none := by
  induction l generalizing s ms with
  | nil => exact h
  | cons hd tl ih =>
    simp only [List.foldl_cons, ppEntry_eq]
    by_cases hck : hd.2.chunkKey = ck
    · by_cases hr : pendReady s.world hd.2 <;>
        · simp only [hck, hr, if_true, if_false, reduceIte]
          apply ih
          simp only [alGet_alRemove]
          by_cases hkk : hd.1 = K <;> simp [hkk, h]
    · simp only [hck, reduceIte]
      exact ih _ _ h

theorem ppGo_dirty_mono (ck : ChunkKey) (l : List (Key × PendingInfo)) (s : WState)
    (ms : List WMsg) (K : Key) (h : K ∈ s.dirty) :
    K ∈ (l.foldl (processPendingEntry ck) (s, ms)).1.dirty := by
  induction l generalizing s ms with
  | nil => exact h
  | cons hd tl ih =>
    simp only [List.foldl_cons, ppEntry_eq]
    by_cases hck : hd.2.chunkKey = ck
    · by_cases hr : pendReady s.world hd.2
      · simp only [hck, hr, if_true, reduceIte]
        exact ih _ _ (mem_setAdd_of_mem h)
      · simp only [hck, hr, if_false, reduceIte]
        exact ih _ _ h
    · simp only [hck, reduceIte]
      exact ih _ _ h

theorem ppGo_msgs_mono (ck : ChunkKey) (l : List (Key × PendingInfo)) (s : WState)
    (ms : List WMsg) (m : WMsg) (h : m ∈ ms) :
    m ∈ (l.foldl (processPendingEntry ck) (s, ms)).2 := by
  induction l generalizing s ms with
  | nil => exact h
  | cons hd tl ih =>
    simp only [List.foldl_cons, ppEntry_eq]
    by_cases hck : hd.2.chunkKey = ck
    · by_cases hr : pendReady s.world hd.2
      · simp only [hck, hr, if_true, reduceIte]
        exact ih _ _ h
      · simp only [hck, hr, if_false, reduceIte]
        exact ih _ _ (List.mem_append_left _ h)
    · simp only [hck, reduceIte]
      exact ih _ _ h

theorem ppGo_processes (ck : ChunkKey) (l : List (Key × PendingInfo)) (s : WState)
    (ms : List WMsg) (K : Key) (info : PendingInfo)
    (hmem : (K, info) ∈ l) (hck : info.chunkKey = ck) :
    alGet K (l.foldl (processPendingEntry ck) (s, ms)).1.pending = none ∧
    (pendReady s.world info = true → K ∈ (l.foldl (processPendingEntry ck) (s, ms)).1.dirty) ∧
    (pendReady s.world info = false →
      WMsg.sectionFinished K ∈ (l.foldl (processPendingEntry ck) (s, ms)).2) := by
  induction l generalizing s ms with
  | nil => cases hmem
  | cons hd tl ih =>
    rcases List.mem_cons.mp hmem with heq | htl
    · subst heq
      simp only [List.foldl_cons, ppEntry_eq, hck, if_true, reduceIte]
      by_cases hr : pendReady s.world info
      · simp only [hr, if_true, reduceIte]
        refine ⟨?_, fun _ => ?_, fun habs => ?_⟩
        · exact ppGo_pending_none _ _ _ _ _ (alGet_alRemove_self _ _)
        · exact ppGo_dirty_mono _ _ _ _ _ (mem_setAdd_self _ _)
        · simp [hr] at habs
      · simp only [hr, if_false, reduceIte]
        refine ⟨?_, fun habs => ?_, fun _ => ?_⟩
        · exact ppGo_pending_none _ _ _ _ _ (alGet_alRemove_self _ _)
        · simp [hr] at habs
        · exact ppGo_msgs_mono _ _ _ _ _ (by simp)
    · simp only [List.foldl_cons, ppEntry_eq]
      by_cases hck2 : hd.2.chunkKey = ck
      · by_cases hr : pendReady s.world hd.2
        · simp only [hck2, hr, if_true, reduceIte]
          exact ih _ _ htl
        · simp only [hck2, hr, if_false, reduceIte]
          exact ih _ _ htl
      · simp only [hck2, reduceIte]
        exact ih _ _ htl

/-! ### Fold lemmas for the tick -/

theorem tickGo_world (l : List Key) (s : WState) (ms : List WMsg) :
    (l.foldl tickEntry (s, ms)).1.world = s.world := by
  induction l generalizing s ms with
  | nil => rfl
  | cons hd tl ih =>
    simp only [List.foldl_cons, tickEntry_eq]
    by_cases hr : tickReady s.world hd <;> simp [hr, ih]

theorem tickGo_blocksStates (l : List Key) (s : WState) (ms : List WMsg) :
    (l.foldl tickEntry (s, ms)).1.blocksStates = s.blocksStates := by
  induction l generalizing s ms with
  | nil => rfl
  | cons hd tl ih =>
    simp only [List.foldl_cons, tickEntry_eq]
    by_cases hr : tickReady s.world hd <;> simp [hr, ih]

theorem tickGo_pending (l : List Key) (s : WState) (ms : List WMsg) :
    (l.foldl tickEntry (s, ms)).1.pending = s.pending := by
  induction l generalizing s ms with
  | nil => rfl
  | cons hd tl ih =>
    simp only [List.foldl_cons, tickEntry_eq]
    by_cases hr : tickReady s.world hd <;> simp [hr, ih]

theorem tickGo_msgs (l : List Key) (s : WState) (ms : List WMsg) :
    (l.foldl tickEntry (s, ms)).2 = ms ++ l.flatMap (tickKeyMsgs s.world) := by
  induction l generalizing s ms with
  | nil => simp
  | cons hd tl ih =>
    simp only [List.foldl_cons, tickEntry_eq, List.flatMap_cons]
    by_cases hr : tickReady s.world hd
    · simp only [hr, if_true, reduceIte]
      rw [ih]
      simp [tickKeyMsgs, hr]
    · simp only [hr, if_false, reduceIte]
      rw [ih]
      simp [tickKeyMsgs, hr]

theorem tickGo_dirty_not_mem (l : List Key) (s : WState) (ms : List WMsg) (K : Key)
    (h : K ∉ s.dirty) : K ∉ (l.foldl tickEntry (s, ms)).1.dirty := by
  induction l generalizing s ms with
  | nil => exact h
  | cons hd tl ih =>
    simp only [List.foldl_cons, tickEntry_eq]
    by_cases hr : tickReady s.world hd
    · simp only [hr, if_true, reduceIte]
      exact ih _ _ (not_mem_setRemove_of_not_mem h)
    · simp only [hr, if_false, reduceIte]
      exact ih _ _ h

theorem tickGo_dirty_removed (l : List Key) (s : WState) (ms : List WMsg) (K : Key)
    (hr : tickReady s.world K = true) (hmem : K ∈ l) :
    K ∉ (l.foldl tickEntry (s, ms)).1.dirty := by
  induction l generalizing s ms with
  | nil => cases hmem
  | cons hd tl ih =>
    rcases List.mem_cons.mp hmem with heq | htl
    · subst heq
      simp only [List.foldl_cons, tickEntry_eq, hr, if_true, reduceIte]
      exact tickGo_dirty_not_mem _ _ _ _ (not_mem_setRemove_self _ _)
    · simp only [List.foldl_cons, tickEntry_eq]
      by_cases hr2 : tickReady s.world hd
      · simp only [hr2, if_true, reduceIte]
        exact ih _ _ (by simpa using hr) htl
      · simp only [hr2, if_false, reduceIte]
        exact ih _ _ (by simpa using hr) htl

theorem tickGo_dirty_kept (l : List Key) (s : WState) (ms : List WMsg) (K : Key)
    (hr : tickReady s.world K = false) (hmem : K ∈ s.dirty) :
    K ∈ (l.foldl tickEntry (s, ms)).1.dirty := by
  induction l generalizing s ms with
  | nil => exact hmem
  | cons hd tl ih =>
    simp only [List.foldl_cons, tickEntry_eq]
    by_cases hr2 : tickReady s.world hd
    · simp only [hr2, if_true, reduceIte]
      have hne : K ≠ hd := by
        intro he
        rw [he] at hr
        rw [hr] at hr2
        cases hr2
      exact ih _ _ (by simpa using hr) (mem_setRemove_of_mem_ne hmem hne)
    · simp only [hr2, if_false, reduceIte]
      exact ih _ _ (by simpa using hr) hmem

theorem count_fin_flatMap (w : Option World) (K : Key) (l : List Key) :
    (l.flatMap (tickKeyMsgs w)).count (WMsg.sectionFinished K) = l.count K := by
  induction l with
  | nil => simp
  | cons hd tl ih =>
    simp only [List.flatMap_cons, List.count_append, List.count_cons, ih]
    unfold tickKeyMsgs
    by_cases hk : K = hd
    · subst hk
      by_cases hr : tickReady w K <;>
        · simp [hr, List.count_cons]
          omega
    · by_cases hr : tickReady w hd <;> simp [hr, hk, List.count_cons, Ne.symm hk]

theorem mem_geo_flatMap (w : Option World) (K : Key) (l : List Key) :
    WMsg.geometry K ∈ l.flatMap (tickKeyMsgs w) ↔ (K ∈ l ∧ tickReady w K = true) := by
  induction l with
  | nil => simp
  | cons hd tl ih =>
    simp only [List.flatMap_cons, List.mem_append, ih, List.mem_cons]
    unfold tickKeyMsgs
    by_cases hk : K = hd
    · subst hk
      by_cases hr : tickReady w K <;> simp [hr]
    · by_cases hr : tickReady w hd <;> simp [hr, hk]

/-- When the shard is initialized (`world` and `blocksStates` non-null) the
tick is the fold over the snapshot of dirty keys. -/
theorem tick_eq_go (st : WState) (w : World) (hw : st.world = some w)
    (hb : st.blocksStates = true) : tick st = st.dirty.foldl tickEntry (st, []) := by
  unfold tick
  rw [hw]
  simp [hb]

/-! ### Waiter lemmas -/

theorem waitStep_not_listening (w : Waiter) (e : Bool) (h : w.listening = false) :
    waitStep w e = (w, 0) := by
  unfold waitStep
  simp [h]

theorem waitRun_not_listening (w : Waiter) (evs : List Bool) (h : w.listening = false) :
    waitRun w evs = (w, 0) := by
  induction evs with
  | nil => rfl
  | cons e es ih =>
    simp only [waitRun, waitStep_not_listening w e h]
    simp [ih]

theorem waitRun_all_false (w : Waiter) (evs : List Bool) (h : ∀ b ∈ evs, b = false) :
    waitRun w evs = (w, 0) := by
  induction evs with
  | nil => rfl
  | cons e es ih =>
    have he : e = false := h e (List.mem_cons_self e es)
    have hstep : waitStep w e = (w, 0) := by
      unfold waitStep
      simp [he]
    simp only [waitRun, hstep]
    simp [ih (fun b hb => h b (List.mem_cons_of_mem e hb))]

theorem waitRun_append (w : Waiter) (l1 l2 : List Bool) :
    waitRun w (l1 ++ l2) =
      ((waitRun (waitRun w l1).1 l2).1,
       (waitRun w l1).2 + (waitRun (waitRun w l1).1 l2).2) := by
  induction l1 generalizing w with
  | nil => simp [waitRun]
  | cons e es ih =>
    simp only [List.cons_append, waitRun]
    rw [show es.append l2 = es ++ l2 from rfl, ih]
    simp [Nat.add_assoc]

/-! ### Fold lemmas for `removeColumn` -/

theorem alGet_alRemove_of_none {κ α : Type} [DecidableEq κ] {k : κ} (j : κ)
    {l : List (κ × α)} (h : alGet k l = none) : alGet k (alRemove j l) = none := by
  rw [alGet_alRemove]
  by_cases hj : j = k <;> simp [hj, h]

theorem rcSlice_eq (x z y : Int) (s : RState) (acts : List SceneAct) :
    removeColumnSlice x z (s, acts) y =
      match alGet ((x, y, z) : Key) s.sectionMeshs with
      | some m =>
        ({ s with sectionMeshs := alRemove ((x, y, z) : Key) s.sectionMeshs,
                  sectionsOutstanding := setAdd (sectionOf ⟨x, y, z⟩) s.sectionsOutstanding },
         acts ++ [SceneAct.remove m, SceneAct.dispose m])
      | none =>
        ({ s with sectionMeshs := alRemove ((x, y, z) : Key) s.sectionMeshs,
                  sectionsOutstanding := setAdd (sectionOf ⟨x, y, z⟩) s.sectionsOutstanding },
         acts) := by
  unfold removeColumnSlice rSetSectionDirty
  cases hm : alGet ((x, y, z) : Key) s.sectionMeshs <;> simp [hm]

theorem rcGo_get_none (x z : Int) (ys : List Int) (acc : RState × List SceneAct) (K : Key)
    (h : alGet K acc.1.sectionMeshs = none) :
    alGet K ((ys.foldl (removeColumnSlice x z) acc).1.sectionMeshs) = none := by
  induction ys generalizing acc with
  | nil => exact h
  | cons y0 tl ih =>
    rcases acc with ⟨s, acts⟩
    simp only [List.foldl_cons, rcSlice_eq]
    cases hm : alGet ((x, y0, z) : Key) s.sectionMeshs <;>
      · simp only [hm]
        exact ih _ (alGet_alRemove_of_none _ h)

theorem rcGo_acts_mono (x z : Int) (ys : List Int) (acc : RState × List SceneAct)
    (a : SceneAct) (h : a ∈ acc.2) : a ∈ (ys.foldl (removeColumnSlice x z) acc).2 := by
  induction ys generalizing acc with
  | nil => exact h
  | cons y0 tl ih =>
    rcases acc with ⟨s, acts⟩
    simp only [List.foldl_cons, rcSlice_eq]
    cases hm : alGet ((x, y0, z) : Key) s.sectionMeshs with
    | some m =>
      simp only [hm]
      exact ih _ (List.mem_append_left _ h)
    | none =>
      simp only [hm]
      exact ih _ h

theorem rcGo_main (x z : Int) (ys : List Int) (acc : RState × List SceneAct) (y : Int)
    (m : Nat) (hy : y ∈ ys) (hm : alGet ((x, y, z) : Key) acc.1.sectionMeshs = some m) :
    SceneAct.dispose m ∈ (ys.foldl (removeColumnSlice x z) acc).2 ∧
    alGet ((x, y, z) : Key) ((ys.foldl (removeColumnSlice x z) acc).1.sectionMeshs) = none := by
  induction ys generalizing acc with
  | nil => cases hy
  | cons y0 tl ih =>
    rcases acc with ⟨s, acts⟩
    by_cases hyy : y = y0
    · subst hyy
      simp only [List.foldl_cons, rcSlice_eq, hm]
      constructor
      · exact rcGo_acts_mono _ _ _ _ _ (by simp)
      · exact rcGo_get_none _ _ _ _ _ (alGet_alRemove_self _ _)
    · have hy' : y ∈ tl := by
        rcases List.mem_cons.mp hy with h | h
        · exact absurd h hyy
        · exact h
      have hne : ((x, y0, z) : Key) ≠ ((x, y, z) : Key) := by
        intro he
        apply hyy
        have := congrArg (fun k : Key => k.2.1) he
        simpa using this.symm
      simp only [List.foldl_cons, rcSlice_eq]
      cases hm0 : alGet ((x, y0, z) : Key) s.sectionMeshs <;>
        · simp only [hm0]
          refine ih _ hy' ?_
          show alGet ((x, y, z) : Key) (alRemove ((x, y0, z) : Key) s.sectionMeshs) = some m
          rw [alGet_alRemove_ne _ hne]
          exact hm

/-! ### Run-assembly lemma -/

theorem wrunEv_cons_some (st st' : WState) (ms : List WMsg) (e : WEvent) (es : List WEvent)
    (h : wstepEv st e = some (st', ms)) :
    wrunEv st (e :: es) = (wrunEv st' es).map (fun r => (r.1, ms ++ r.2)) := by
  have hd : wrunEv st (e :: es) =
      match wstepEv st e with
      | none => none
      | some (st1, ms1) =>
        match wrunEv st1 es with
        | none => none
        | some (st2, ms2) => some (st2, ms1 ++ ms2) := rfl
  rw [hd, h]
  show (match wrunEv st' es with
        | none => none
        | some (st2, ms2) => some (st2, ms ++ ms2)) =
      (wrunEv st' es).map (fun r => (r.1, ms ++ r.2))
  cases wrunEv st' es with
  | none => rfl
  | some r => rfl

/-! ### Claim theorems -/

/-- C4: marking a section key dirty and then immediately marking it not-dirty,
before any tick runs, produces exactly one `sectionFinished` message for that
key (the dirty call emits nothing, the cancel call emits exactly the one
acknowledgement) and leaves the key in neither the dirty set nor the pending
set — for every prior worker state, so in particular both when the key's
column is loaded (key was dirty) and when it is not (key was pending). -/
theorem dirty_then_cancel_single_finish (st : WState) (pos : V3) :
    (wSetSectionDirty st pos true).2 = [] ∧
    (wSetSectionDirty (wSetSectionDirty st pos true).1 pos false).2 =
      [WMsg.sectionFinished (sectionOf pos)] ∧
    sectionOf pos ∉ (wSetSectionDirty (wSetSectionDirty st pos true).1 pos false).1.dirty ∧
    alGet (sectionOf pos)
      (wSetSectionDirty (wSetSectionDirty st pos true).1 pos false).1.pending = none := by
  refine ⟨?_, ?_, ?_, ?_⟩
  · rw [wSSD_true_eq]
    by_cases h : sectionReady st pos <;> simp [h]
  · rw [wSSD_cancel]
  · rw [wSSD_cancel]
    exact not_mem_setRemove_self _ _
  · rw [wSSD_cancel]
    exact alGet_alRemove_self _ _

/-- C5: the dispatcher's `setSectionDirty` routes each dirty instruction to
exactly one worker, whose index is the sum of the section's chunk-grid
coordinates reduced mod the worker count and normalized into `[0, N)` even
for negative coordinates; the index is a pure function of the section
coordinate, and with two workers the sections at `(0,0,0)` and `(16,0,0)`
route to shards 0 and 1 respectively. -/
theorem setSectionDirty_routing (st : RState) (pos q : V3) (hn : 0 < st.numWorkers) :
    (0 ≤ workerHash pos st.numWorkers ∧
      workerHash pos st.numWorkers < (st.numWorkers : Int)) ∧
    workerHash pos st.numWorkers =
      (pos.x.fdiv 16 + pos.y.fdiv 16 + pos.z.fdiv 16).emod (st.numWorkers : Int) ∧
    (sectionOf q = sectionOf pos →
      workerHash q st.numWorkers = workerHash pos st.numWorkers) ∧
    (rSetSectionDirty st pos true).2.1 = (workerHash pos st.numWorkers).toNat ∧
    (rSetSectionDirty st pos true).2.1 < st.numWorkers ∧
    (st.numWorkers = 2 →
      (rSetSectionDirty st ⟨0, 0, 0⟩ true).2.1 = 0 ∧
      (rSetSectionDirty st ⟨16, 0, 0⟩ true).2.1 = 1) := by
  have hn' : (0 : Int) < (st.numWorkers : Int) := by exact_mod_cast hn
  have hb := jsmod_nonneg_lt (pos.x.fdiv 16 + pos.y.fdiv 16 + pos.z.fdiv 16) _ hn'
  refine ⟨hb, jsmod_eq_emod _ _ hn', ?_, rfl, ?_, ?_⟩
  · intro hq
    unfold sectionOf at hq
    have h1 : 16 * (q.x.fdiv 16) = 16 * (pos.x.fdiv 16) := congrArg Prod.fst hq
    have h2 : 16 * (q.y.fdiv 16) = 16 * (pos.y.fdiv 16) :=
      congrArg Prod.fst (congrArg Prod.snd hq)
    have h3 : 16 * (q.z.fdiv 16) = 16 * (pos.z.fdiv 16) :=
      congrArg Prod.snd (congrArg Prod.snd hq)
    unfold workerHash
    have e1 : q.x.fdiv 16 = pos.x.fdiv 16 := by omega
    have e2 : q.y.fdiv 16 = pos.y.fdiv 16 := by omega
    have e3 : q.z.fdiv 16 = pos.z.fdiv 16 := by omega
    rw [e1, e2, e3]
  · have hb2 : 0 ≤ workerHash pos st.numWorkers ∧
        workerHash pos st.numWorkers < (st.numWorkers : Int) := hb
    have hr : (rSetSectionDirty st pos true).2.1 = (workerHash pos st.numWorkers).toNat := rfl
    rw [hr]
    omega
  · intro h2
    have g1 : (rSetSectionDirty st ⟨0, 0, 0⟩ true).2.1 =
        (workerHash ⟨0, 0, 0⟩ st.numWorkers).toNat := rfl
    have g2 : (rSetSectionDirty st ⟨16, 0, 0⟩ true).2.1 =
        (workerHash ⟨16, 0, 0⟩ st.numWorkers).toNat := rfl
    exact ⟨by rw [g1, h2]; decide, by rw [g2, h2]; decide⟩

/-- C5 witness: with the two-worker dispatcher `rs0`, the sections at
`(0,0,0)` and `(16,0,0)` are routed to workers 0 and 1. -/
theorem setSectionDirty_routing_witness :
    (rSetSectionDirty rs0 ⟨0, 0, 0⟩ true).2.1 = 0 ∧
    (rSetSectionDirty rs0 ⟨16, 0, 0⟩ true).2.1 = 1 :=
  (setSectionDirty_routing rs0 ⟨0, 0, 0⟩ ⟨0, 0, 0⟩ (by decide)).2.2.2.2.2 rfl

/-- C6 counterexample: calling the dispatcher's `setSectionDirty` with
`value = false` on a state with an empty `OutstandingSet` adds the section
key to the set — refuting the claim that the key is added only when
`value = true` (worldrenderer.js adds it unconditionally, before the
completion echo comes back). -/
theorem outstanding_added_on_false_cex :
    rs0.sectionsOutstanding = [] ∧
    (rSetSectionDirty rs0 ⟨0, 0, 0⟩ false).1.sectionsOutstanding = [(0, 0, 0)] := by
  constructor <;> rfl

/-- C6 (amended): the dispatcher's `setSectionDirty(pos, value)` adds the
section's key to the controller-side `OutstandingSet` on every call,
regardless of `value`; for `value = false` the entry is only removed later by
the asynchronous `sectionFinished` echo. -/
theorem setSectionDirty_outstanding_always_added (st : RState) (pos : V3) (value : Bool) :
    sectionOf pos ∈ (rSetSectionDirty st pos value).1.sectionsOutstanding :=
  mem_setAdd_self _ _

/-- C10: `WorldView.loadChunk` ignores any chunk whose chunk-grid distance to
the currently tracked viewpoint is at least `viewDistance` on the x or the z
axis (the guard is a strict less-than on both axes): the data source is not
queried, no event is emitted, and the loaded-chunk set is unchanged. -/
theorem loadChunk_distance_guard (st : WVState) (gca : V3 → Option String)
    (be : Int → Int → String → List WVEvent) (pos : V3)
    (h : st.viewDistance ≤ |(chunkPos st.lastPos).1 - pos.x.fdiv 16| ∨
         st.viewDistance ≤ |(chunkPos st.lastPos).2 - pos.z.fdiv 16|) :
    wvLoadChunk st gca be pos = (st, [], false) := by
  have hcond : ¬(|(chunkPos st.lastPos).1 - pos.x.fdiv 16| < st.viewDistance ∧
      |(chunkPos st.lastPos).2 - pos.z.fdiv 16| < st.viewDistance) := by
    rintro ⟨h1, h2⟩
    rcases h with h | h
    · exact absurd h1 (not_lt.2 h)
    · exact absurd h2 (not_lt.2 h)
  unfold wvLoadChunk
  simp only [if_neg hcond]

/-- C10 witness: with view distance 2 from chunk `(0,0)`, the chunk at world
x = 32 (chunk-grid distance exactly 2) is not loaded: no query, no events, no
state change. -/
theorem loadChunk_distance_guard_witness :
    wvLoadChunk wv0 (fun _ => some "c") (fun _ _ _ => []) ⟨32, 0, 0⟩ = (wv0, [], false) :=
  loadChunk_distance_guard wv0 _ _ _ (Or.inl (by decide))

/-- C7: `waitForChunksToRender` resolves immediately (one `resolve` call, no
listener registered) when the `OutstandingSet` is empty at call time;
otherwise it registers a listener, stays pending through update notifications
at which the set is non-empty, and resolves exactly once at the first
notification at which the set has become empty, removing its own listener —
so sequential waits leave no listeners behind (a resolved waiter is inert for
every later notification). -/
theorem waitForChunksToRender_spec (pre post evs : List Bool)
    (hpre : ∀ b ∈ pre, b = false) :
    waitCall true = ({ resolved := true, listening := false }, 1) ∧
    waitRun { resolved := true, listening := false } evs =
      ({ resolved := true, listening := false }, 0) ∧
    waitRun (waitCall false).1 pre = ((waitCall false).1, 0) ∧
    waitRun (waitCall false).1 (pre ++ true :: post) =
      ({ resolved := true, listening := false }, 1) := by
  refine ⟨rfl, waitRun_not_listening _ _ rfl, waitRun_all_false _ _ hpre, ?_⟩
  rw [waitRun_append, waitRun_all_false _ _ hpre]
  have h1 : waitStep (waitCall false).1 true =
      ({ resolved := true, listening := false }, 1) := rfl
  simp only [waitRun, h1,
    waitRun_not_listening { resolved := true, listening := false } post rfl]

/-- C7 witness: a waiter started on a non-empty `OutstandingSet` that sees a
still-non-empty notification, then an empty one, then one more notification,
resolves exactly once and ends unregistered. -/
theorem waitForChunksToRender_spec_witness :
    waitRun (waitCall false).1 ([false] ++ true :: [false]) =
      ({ resolved := true, listening := false }, 1) :=
  (waitForChunksToRender_spec [false] [false] [] (by decide)).2.2.2

/-- C9: `World.getBlock` returns `null` when the column owning the position
is not loaded (the embedding is total, so no exception is possible);
otherwise it returns the memoized descriptor for the block-state id at that
position — reusing the cached entry's block data when the state id was seen
before, creating the cache entry from `column.getBlock` on first sight — with
its `position` and `biome` fields set, the updated entry stored back in the
cache, and the biome falling back to the fixed default `biomeCache[1]` when
the column's raw biome index has no entry in the biome table. -/
theorem getBlock_spec (w : World) (pos : V3) :
    (alGet (colKeyOf pos) w.columns = none → w.getBlock pos = (none, w)) ∧
    (∀ col, alGet (colKeyOf pos) w.columns = some col →
      ∃ e, (w.getBlock pos).1 = some e ∧
        e.position = pos ∧
        (e.biome = match w.biomeCache (col.getBiome (posInChunk pos)) with
                   | some v => some v
                   | none => w.biomeCache 1) ∧
        alGet (col.getBlockStateId (posInChunk pos)) (w.getBlock pos).2.blockCache = some e ∧
        (∀ c0, alGet (col.getBlockStateId (posInChunk pos)) w.blockCache = some c0 →
          e.raw = c0.raw ∧ e.isCube = c0.isCube) ∧
        (alGet (col.getBlockStateId (posInChunk pos)) w.blockCache = none →
          e.raw = col.getBlockRaw (posInChunk pos) ∧
          e.isCube = isCube (col.getBlockRaw (posInChunk pos)).shapes)) := by
  constructor
  · intro h
    simp only [World.getBlock, h]
  · intro col hcol
    simp only [World.getBlock, hcol]
    refine ⟨_, rfl, rfl, rfl, alGet_alSet_self _ _ _, ?_, ?_⟩
    · intro c1 hc1
      simp [hc1]
    · intro hnone
      simp [hnone]

/-- C9 witness: in the world `wld9`, looking up position `(1,2,3)` (whose
column is loaded, whose state id `7` is unseen, and whose raw biome index `5`
is unmapped) yields a freshly created, cached descriptor at that position
with the fallback biome. -/
theorem getBlock_spec_witness :
    ∃ e, (wld9.getBlock ⟨1, 2, 3⟩).1 = some e ∧
      e.position = ⟨1, 2, 3⟩ ∧
      (e.biome = match wld9.biomeCache (col9.getBiome (posInChunk ⟨1, 2, 3⟩)) with
                 | some v => some v
                 | none => wld9.biomeCache 1) ∧
      alGet (col9.getBlockStateId (posInChunk ⟨1, 2, 3⟩))
        (wld9.getBlock ⟨1, 2, 3⟩).2.blockCache = some e ∧
      (∀ c0, alGet (col9.getBlockStateId (posInChunk ⟨1, 2, 3⟩)) wld9.blockCache = some c0 →
        e.raw = c0.raw ∧ e.isCube = c0.isCube) ∧
      (alGet (col9.getBlockStateId (posInChunk ⟨1, 2, 3⟩)) wld9.blockCache = none →
        e.raw = col9.getBlockRaw (posInChunk ⟨1, 2, 3⟩) ∧
        e.isCube = isCube (col9.getBlockRaw (posInChunk ⟨1, 2, 3⟩)).shapes) :=
  (getBlock_spec wld9 ⟨1, 2, 3⟩).2 col9 rfl

/-- C1 counterexample: running a shard from its start state over
`overlapEvents` (mark `(0,0,0)` dirty while its column is loaded, unload the
column, mark it dirty again) leaves the key simultaneously in the dirty set
and in the pending set between message handlers — refuting the claimed
three-state exclusivity: the worker's `setSectionDirty` pending branch never
clears the dirty flag. -/
theorem dirty_pending_overlap_cex :
    (wrunEv WState.start overlapEvents).map
      (fun r => (r.1.dirty.contains (0, 0, 0), (alGet ((0, 0, 0) : Key) r.1.pending).isSome)) =
      some (true, true) := by
  rfl

/-- C1 (amended): the worker's per-key state machine, as the code implements
it: the cancel branch clears both sets and acknowledges; the dirty branch
(column loaded with a section at the slice) puts the key in dirty and out of
pending; the pending branch parks the key but leaves the dirty set untouched
— so a key that was already dirty stays dirty while also pending; and when a
column's data arrives every pending key for that column is removed from
pending, transitioning to dirty if the column has a section at its slice and
being resolved with a `sectionFinished` emission otherwise. -/
theorem setSectionDirty_pending_state_machine
    (st : WState) (pos : V3) (cx cz : Int) (K : Key) (info : PendingInfo) :
    (sectionOf pos ∉ (wSetSectionDirty st pos false).1.dirty ∧
     alGet (sectionOf pos) (wSetSectionDirty st pos false).1.pending = none ∧
     (wSetSectionDirty st pos false).2 = [WMsg.sectionFinished (sectionOf pos)]) ∧
    (sectionReady st pos = true →
      sectionOf pos ∈ (wSetSectionDirty st pos true).1.dirty ∧
      alGet (sectionOf pos) (wSetSectionDirty st pos true).1.pending = none) ∧
    (sectionReady st pos = false →
      (alGet (sectionOf pos) (wSetSectionDirty st pos true).1.pending).isSome = true ∧
      (wSetSectionDirty st pos true).1.dirty = st.dirty) ∧
    ((K, info) ∈ st.pending → info.chunkKey = (cx, cz) →
      alGet K (processPendingSectionsForChunk st cx cz).1.pending = none ∧
      (pendReady st.world info = true →
        K ∈ (processPendingSectionsForChunk st cx cz).1.dirty) ∧
      (pendReady st.world info = false →
        WMsg.sectionFinished K ∈ (processPendingSectionsForChunk st cx cz).2)) := by
  refine ⟨⟨?_, ?_, ?_⟩, ?_, ?_, ?_⟩
  · rw [wSSD_cancel]
    exact not_mem_setRemove_self _ _
  · rw [wSSD_cancel]
    exact alGet_alRemove_self _ _
  · rw [wSSD_cancel]
  · intro h
    rw [wSSD_true_eq]
    simp only [h, reduceIte]
    exact ⟨mem_setAdd_self _ _, alGet_alRemove_self _ _⟩
  · intro h
    rw [wSSD_true_eq]
    simp only [h, Bool.false_eq_true, reduceIte]
    constructor
    · rw [alGet_alSet_self]
      rfl
    · trivial
  · intro hmem hck
    exact ppGo_processes (cx, cz) st.pending st [] K info hmem hck

/-- C1 witness: on the worker state `wstP` (one pending entry for chunk
`(0,0)`, whose column is not loaded), processing the arrival path for chunk
`(0,0)` removes the key from pending and resolves it with `sectionFinished`. -/
theorem setSectionDirty_pending_state_machine_witness :
    alGet ((0, 0, 0) : Key) (processPendingSectionsForChunk wstP 0 0).1.pending = none ∧
    WMsg.sectionFinished (0, 0, 0) ∈ (processPendingSectionsForChunk wstP 0 0).2 := by
  have h := (setSectionDirty_pending_state_machine wstP ⟨0, 0, 0⟩ 0 0 (0, 0, 0)
      { x := 0, y := 0, z := 0, chunkKey := (0, 0) }).2.2.2 (by decide) rfl
  exact ⟨h.1, h.2.2 rfl⟩

/-- C3 counterexample: a shard whose dirty key's column has been unloaded
emits `sectionFinished` for that key on every tick while leaving the key
dirty: over `dupFinishEvents` the worker emits two `sectionFinished` messages
for `(0,0,0)` with no intervening dirty instruction — refuting the claimed
exactly-once finish accounting. -/
theorem duplicate_sectionFinished_cex :
    (wrunEv WState.start dupFinishEvents).map (fun r => r.2) =
      some [WMsg.sectionFinished (0, 0, 0), WMsg.sectionFinished (0, 0, 0)] := by
  rfl

/-- C3 (amended): on a tick, a dirty key whose column is present with a
section at its slice is finished exactly once — one `sectionFinished`, the
key leaves the dirty set, and a following tick emits nothing for it; but a
dirty key whose column is no longer present gets only the completion
acknowledgement (no geometry) while remaining in the dirty set, so the
following tick emits a further `sectionFinished` for it with no intervening
dirty instruction. -/
theorem tick_finish_accounting (st : WState) (w : World) (K : Key)
    (hw : st.world = some w) (hb : st.blocksStates = true)
    (hcount : st.dirty.count K = 1) :
    (tickReady st.world K = true →
      (tick st).2.count (WMsg.sectionFinished K) = 1 ∧
      K ∉ (tick st).1.dirty ∧
      (tick (tick st).1).2.count (WMsg.sectionFinished K) = 0) ∧
    (tickReady st.world K = false →
      (tick st).2.count (WMsg.sectionFinished K) = 1 ∧
      WMsg.geometry K ∉ (tick st).2 ∧
      K ∈ (tick st).1.dirty ∧
      1 ≤ (tick (tick st).1).2.count (WMsg.sectionFinished K)) := by
  have hKmem : K ∈ st.dirty := List.count_pos_iff.mp (by omega)
  have htick : tick st = st.dirty.foldl tickEntry (st, []) := tick_eq_go st w hw hb
  have hmsgs : (tick st).2 = st.dirty.flatMap (tickKeyMsgs st.world) := by
    rw [htick, tickGo_msgs]
    simp
  have hcnt : (tick st).2.count (WMsg.sectionFinished K) = st.dirty.count K := by
    rw [hmsgs, count_fin_flatMap]
  have hw1 : (tick st).1.world = st.world := by
    rw [htick]
    exact tickGo_world _ _ _
  have hb1 : (tick st).1.blocksStates = true := by
    rw [htick, tickGo_blocksStates]
    exact hb
  have htick2 : tick (tick st).1 = (tick st).1.dirty.foldl tickEntry ((tick st).1, []) :=
    tick_eq_go _ w (by rw [hw1]; exact hw) hb1
  have hmsgs2 : (tick (tick st).1).2 =
      (tick st).1.dirty.flatMap (tickKeyMsgs (tick st).1.world) := by
    rw [htick2, tickGo_msgs]
    simp
  have hcnt2 : (tick (tick st).1).2.count (WMsg.sectionFinished K) =
      (tick st).1.dirty.count K := by
    rw [hmsgs2, count_fin_flatMap]
  constructor
  · intro hr
    have hout : K ∉ (tick st).1.dirty := by
      rw [htick]
      exact tickGo_dirty_removed _ _ _ _ hr hKmem
    refine ⟨by rw [hcnt, hcount], hout, ?_⟩
    rw [hcnt2]
    exact List.count_eq_zero.mpr hout
  · intro hr
    have hin : K ∈ (tick st).1.dirty := by
      rw [htick]
      exact tickGo_dirty_kept _ _ _ _ hr hKmem
    refine ⟨by rw [hcnt, hcount], ?_, hin, ?_⟩
    · rw [hmsgs, mem_geo_flatMap]
      rintro ⟨-, habs⟩
      rw [habs] at hr
      cases hr
    · rw [hcnt2]
      exact List.count_pos_iff.mpr hin

/-- C3 witness: on the worker state `wstD` (key `(0,0,0)` dirty, its column
absent), one tick emits exactly one acknowledgement and no geometry while
keeping the key dirty, and the next tick emits at least one more. -/
theorem tick_finish_accounting_witness :
    (tick wstD).2.count (WMsg.sectionFinished (0, 0, 0)) = 1 ∧
    WMsg.geometry (0, 0, 0) ∉ (tick wstD).2 ∧
    (0, 0, 0) ∈ (tick wstD).1.dirty ∧
    1 ≤ (tick (tick wstD).1).2.count (WMsg.sectionFinished (0, 0, 0)) :=
  (tick_finish_accounting wstD (World.init bi0) (0, 0, 0) rfl rfl (by decide)).2 rfl

/-- C2 counterexample: for section `(0,64,0)` — a slice at which `col0` has
no section — dirty-before-data (`orderAEvents`) emits one `sectionFinished`
and clears all per-key state, while data-before-dirty (`orderBEvents`) emits
nothing and leaves the key parked in the pending set: the two orders do not
converge to the same final state and output, refuting the claim for
structurally empty sections. -/
theorem order_dependence_cex :
    (wrunEv WState.start orderAEvents).map (fun r => (r.2, r.1.pending.isEmpty)) =
      some ([WMsg.sectionFinished (0, 64, 0)], true) ∧
    (wrunEv WState.start orderBEvents).map (fun r => (r.2, r.1.pending.isEmpty)) =
      some ([], false) := by
  constructor <;> rfl

/-- C2 (amended): starting from an initialized shard that does not yet hold
the column, delivering dirty-then-data and data-then-dirty (each followed by
a tick) converge to the same final state and the same output when the column
has a section at the key's slice — the mesh geometry plus one acknowledgement
— but for a structurally empty slice the orders diverge: dirty-before-data
resolves with a single `sectionFinished` at column arrival, while
data-before-dirty parks the key as pending and emits nothing. -/
theorem dirty_data_order_convergence (w : World) (px py pz : Int) (col : Column)
    (hcol : w.getColumn (16 * (px.fdiv 16)) (16 * (pz.fdiv 16)) = none) :
    (col.hasSection (16 * (py.fdiv 16)) = true →
      wrunEv { world := some w, blocksStates := true, dirty := [], pending := [] }
          [WEvent.msg (InMsg.dirty px py pz true),
           WEvent.msg (InMsg.chunk (16 * (px.fdiv 16)) (16 * (pz.fdiv 16)) col),
           WEvent.tickFire] =
        some ({ world := some (w.addColumn (16 * (px.fdiv 16)) (16 * (pz.fdiv 16)) col),
                blocksStates := true, dirty := [], pending := [] },
              [WMsg.geometry (sectionOf ⟨px, py, pz⟩),
               WMsg.sectionFinished (sectionOf ⟨px, py, pz⟩)]) ∧
      wrunEv { world := some w, blocksStates := true, dirty := [], pending := [] }
          [WEvent.msg (InMsg.chunk (16 * (px.fdiv 16)) (16 * (pz.fdiv 16)) col),
           WEvent.msg (InMsg.dirty px py pz true),
           WEvent.tickFire] =
        some ({ world := some (w.addColumn (16 * (px.fdiv 16)) (16 * (pz.fdiv 16)) col),
                blocksStates := true, dirty := [], pending := [] },
              [WMsg.geometry (sectionOf ⟨px, py, pz⟩),
               WMsg.sectionFinished (sectionOf ⟨px, py, pz⟩)])) ∧
    (col.hasSection (16 * (py.fdiv 16)) = false →
      wrunEv { world := some w, blocksStates := true, dirty := [], pending := [] }
          [WEvent.msg (InMsg.dirty px py pz true),
           WEvent.msg (InMsg.chunk (16 * (px.fdiv 16)) (16 * (pz.fdiv 16)) col),
           WEvent.tickFire] =
        some ({ world := some (w.addColumn (16 * (px.fdiv 16)) (16 * (pz.fdiv 16)) col),
                blocksStates := true, dirty := [], pending := [] },
              [WMsg.sectionFinished (sectionOf ⟨px, py, pz⟩)]) ∧
      wrunEv { world := some w, blocksStates := true, dirty := [], pending := [] }
          [WEvent.msg (InMsg.chunk (16 * (px.fdiv 16)) (16 * (pz.fdiv 16)) col),
           WEvent.msg (InMsg.dirty px py pz true),
           WEvent.tickFire] =
        some ({ world := some (w.addColumn (16 * (px.fdiv 16)) (16 * (pz.fdiv 16)) col),
                blocksStates := true, dirty := [],
                pending := [(sectionOf ⟨px, py, pz⟩, pendInfoOf ⟨px, py, pz⟩)] },
              [])) := by
  have hget : (w.addColumn (16 * (px.fdiv 16)) (16 * (pz.fdiv 16)) col).getColumn
      (16 * (px.fdiv 16)) (16 * (pz.fdiv 16)) = some col :=
    alGet_alSet_self _ _ _
  have hsr0 : sectionReady
      { world := some w, blocksStates := true, dirty := [],
        pending := ([] : List (Key × PendingInfo)) } ⟨px, py, pz⟩ = false := by
    simp [sectionReady, hcol]
  have hd0 : wstepEv { world := some w, blocksStates := true, dirty := [], pending := [] }
      (WEvent.msg (InMsg.dirty px py pz true)) =
      some ({ world := some w, blocksStates := true, dirty := [],
              pending := [(sectionOf ⟨px, py, pz⟩, pendInfoOf ⟨px, py, pz⟩)] }, []) := by
    show some (wSetSectionDirty
        { world := some w, blocksStates := true, dirty := [], pending := [] }
        ⟨px, py, pz⟩ true) = _
    rw [wSSD_true_eq, hsr0]
    simp [alSet]
  have hc0 : wstepEv { world := some w, blocksStates := true, dirty := [], pending := [] }
      (WEvent.msg (InMsg.chunk (16 * (px.fdiv 16)) (16 * (pz.fdiv 16)) col)) =
      some ({ world := some (w.addColumn (16 * (px.fdiv 16)) (16 * (pz.fdiv 16)) col),
              blocksStates := true, dirty := [], pending := [] }, []) := rfl
  constructor
  · intro hs
    have hcA : wstepEv
        ({ world := some w, blocksStates := true, dirty := [],
           pending := [(sectionOf ⟨px, py, pz⟩, pendInfoOf ⟨px, py, pz⟩)] })
        (WEvent.msg (InMsg.chunk (16 * (px.fdiv 16)) (16 * (pz.fdiv 16)) col)) =
        some ({ world := some (w.addColumn (16 * (px.fdiv 16)) (16 * (pz.fdiv 16)) col),
                blocksStates := true, dirty := [sectionOf ⟨px, py, pz⟩], pending := [] },
              []) := by
      show some (processPendingSectionsForChunk
          { world := some (w.addColumn (16 * (px.fdiv 16)) (16 * (pz.fdiv 16)) col),
            blocksStates := true, dirty := [],
            pending := [(sectionOf ⟨px, py, pz⟩, pendInfoOf ⟨px, py, pz⟩)] }
          (16 * (px.fdiv 16)) (16 * (pz.fdiv 16))) = _
      unfold processPendingSectionsForChunk
      rw [List.foldl_cons, ppEntry_eq, List.foldl_nil]
      simp [pendInfoOf, pendReady, hget, hs, sectionOf, setAdd, alRemove]
    have htA : wstepEv
        ({ world := some (w.addColumn (16 * (px.fdiv 16)) (16 * (pz.fdiv 16)) col),
           blocksStates := true, dirty := [sectionOf ⟨px, py, pz⟩], pending := [] })
        WEvent.tickFire =
        some ({ world := some (w.addColumn (16 * (px.fdiv 16)) (16 * (pz.fdiv 16)) col),
                blocksStates := true, dirty := [], pending := [] },
              [WMsg.geometry (sectionOf ⟨px, py, pz⟩),
               WMsg.sectionFinished (sectionOf ⟨px, py, pz⟩)]) := by
      show some (tick _) = _
      unfold tick
      rw [List.foldl_cons, tickEntry_eq, List.foldl_nil]
      simp [tickReady, sectionOf, hget, hs, setRemove]
    have hdB : wstepEv
        ({ world := some (w.addColumn (16 * (px.fdiv 16)) (16 * (pz.fdiv 16)) col),
           blocksStates := true, dirty := [], pending := [] })
        (WEvent.msg (InMsg.dirty px py pz true)) =
        some ({ world := some (w.addColumn (16 * (px.fdiv 16)) (16 * (pz.fdiv 16)) col),
                blocksStates := true, dirty := [sectionOf ⟨px, py, pz⟩], pending := [] },
              []) := by
      show some (wSetSectionDirty
          { world := some (w.addColumn (16 * (px.fdiv 16)) (16 * (pz.fdiv 16)) col),
            blocksStates := true, dirty := [], pending := [] }
          ⟨px, py, pz⟩ true) = _
      have hsr1 : sectionReady
          ({ world := some (w.addColumn (16 * (px.fdiv 16)) (16 * (pz.fdiv 16)) col),
             blocksStates := true, dirty := [],
             pending := ([] : List (Key × PendingInfo)) }) ⟨px, py, pz⟩ = true := by
        simp [sectionReady, hget, hs]
      rw [wSSD_true_eq, hsr1]
      simp [setAdd, alRemove]
    constructor
    · rw [wrunEv_cons_some _ _ _ _ _ hd0, wrunEv_cons_some _ _ _ _ _ hcA,
        wrunEv_cons_some _ _ _ _ _ htA]
      simp [wrunEv]
    · rw [wrunEv_cons_some _ _ _ _ _ hc0, wrunEv_cons_some _ _ _ _ _ hdB,
        wrunEv_cons_some _ _ _ _ _ htA]
      simp [wrunEv]
  · intro hs
    have hcA : wstepEv
        ({ world := some w, blocksStates := true, dirty := [],
           pending := [(sectionOf ⟨px, py, pz⟩, pendInfoOf ⟨px, py, pz⟩)] })
        (WEvent.msg (InMsg.chunk (16 * (px.fdiv 16)) (16 * (pz.fdiv 16)) col)) =
        some ({ world := some (w.addColumn (16 * (px.fdiv 16)) (16 * (pz.fdiv 16)) col),
                blocksStates := true, dirty := [], pending := [] },
              [WMsg.sectionFinished (sectionOf ⟨px, py, pz⟩)]) := by
      show some (processPendingSectionsForChunk
          { world := some (w.addColumn (16 * (px.fdiv 16)) (16 * (pz.fdiv 16)) col),
            blocksStates := true, dirty := [],
            pending := [(sectionOf ⟨px, py, pz⟩, pendInfoOf ⟨px, py, pz⟩)] }
          (16 * (px.fdiv 16)) (16 * (pz.fdiv 16))) = _
      unfold processPendingSectionsForChunk
      rw [List.foldl_cons, ppEntry_eq, List.foldl_nil]
      simp [pendInfoOf, pendReady, hget, hs, sectionOf, alRemove]
    have htE : wstepEv
        ({ world := some (w.addColumn (16 * (px.fdiv 16)) (16 * (pz.fdiv 16)) col),
           blocksStates := true, dirty := [], pending := [] })
        WEvent.tickFire =
        some ({ world := some (w.addColumn (16 * (px.fdiv 16)) (16 * (pz.fdiv 16)) col),
                blocksStates := true, dirty := [], pending := [] }, []) := rfl
    have hdB : wstepEv
        ({ world := some (w.addColumn (16 * (px.fdiv 16)) (16 * (pz.fdiv 16)) col),
           blocksStates := true, dirty := [], pending := [] })
        (WEvent.msg (InMsg.dirty px py pz true)) =
        some ({ world := some (w.addColumn (16 * (px.fdiv 16)) (16 * (pz.fdiv 16)) col),
                blocksStates := true, dirty := [],
                pending := [(sectionOf ⟨px, py, pz⟩, pendInfoOf ⟨px, py, pz⟩)] }, []) := by
      show some (wSetSectionDirty
          { world := some (w.addColumn (16 * (px.fdiv 16)) (16 * (pz.fdiv 16)) col),
            blocksStates := true, dirty := [], pending := [] }
          ⟨px, py, pz⟩ true) = _
      have hsr1 : sectionReady
          ({ world := some (w.addColumn (16 * (px.fdiv 16)) (16 * (pz.fdiv 16)) col),
             blocksStates := true, dirty := [],
             pending := ([] : List (Key × PendingInfo)) }) ⟨px, py, pz⟩ = false := by
        simp [sectionReady, hget, hs]
      rw [wSSD_true_eq, hsr1]
      simp [alSet]
    have htP : wstepEv
        ({ world := some (w.addColumn (16 * (px.fdiv 16)) (16 * (pz.fdiv 16)) col),
           blocksStates := true, dirty := [],
           pending := [(sectionOf ⟨px, py, pz⟩, pendInfoOf ⟨px, py, pz⟩)] })
        WEvent.tickFire =
        some ({ world := some (w.addColumn (16 * (px.fdiv 16)) (16 * (pz.fdiv 16)) col),
                blocksStates := true, dirty := [],
                pending := [(sectionOf ⟨px, py, pz⟩, pendInfoOf ⟨px, py, pz⟩)] }, []) := rfl
    constructor
    · rw [wrunEv_cons_some _ _ _ _ _ hd0, wrunEv_cons_some _ _ _ _ _ hcA,
        wrunEv_cons_some _ _ _ _ _ htE]
      simp [wrunEv]
    · rw [wrunEv_cons_some _ _ _ _ _ hc0, wrunEv_cons_some _ _ _ _ _ hdB,
        wrunEv_cons_some _ _ _ _ _ htP]
      simp [wrunEv]

/-- C2 witness: with the empty world and `col0` (which has a section at the
slice of `(0,0,0)`), dirty-then-data and data-then-dirty runs are equal. -/
theorem dirty_data_order_convergence_witness :
    wrunEv { world := some (World.init bi0), blocksStates := true, dirty := [], pending := [] }
        [WEvent.msg (InMsg.dirty 0 0 0 true), WEvent.msg (InMsg.chunk (16 * ((0 : Int).fdiv 16))
          (16 * ((0 : Int).fdiv 16)) col0), WEvent.tickFire] =
      wrunEv { world := some (World.init bi0), blocksStates := true, dirty := [], pending := [] }
        [WEvent.msg (InMsg.chunk (16 * ((0 : Int).fdiv 16)) (16 * ((0 : Int).fdiv 16)) col0),
         WEvent.msg (InMsg.dirty 0 0 0 true), WEvent.tickFire] := by
  have h := (dirty_data_order_convergence (World.init bi0) 0 0 0 col0 rfl).1 rfl
  rw [h.1, h.2]

/-- C8 counterexample: `resetWorld` on a dispatcher displaying mesh `5` drops
the mesh from the table and removes it from the scene, but never disposes it
— refuting the claim that every removal path disposes the meshes it drops
(worldrenderer.js calls only `scene.remove`, not `dispose3`, in its reset
loop). -/
theorem resetWorld_no_dispose_cex :
    (resetWorld rsMesh).1.sectionMeshs = [] ∧
    (resetWorld rsMesh).2 = [SceneAct.remove 5] ∧
    SceneAct.dispose 5 ∉ (resetWorld rsMesh).2 := by
  refine ⟨rfl, rfl, ?_⟩
  decide

/-- C8 (amended): on the geometry-message path an existing mesh for the key
is removed and disposed before anything else, and the new mesh is installed
(added to the scene and stored in the table) only when the key's column is
still loaded — the payload is discarded otherwise; `removeColumn` disposes
the displayed mesh of every vertical slice of the column and clears its table
entries; but the full-reset path removes every displayed mesh from the scene
and empties the table without disposing anything. -/
theorem mesh_disposal_paths (st : RState) (key : Key) (nm m : Nat) (x z y : Int) :
    (alGet key st.sectionMeshs = some m →
      (onGeometry st key nm).2 =
        [SceneAct.remove m, SceneAct.dispose m] ++
          (if (key.1, key.2.2) ∈ st.loadedChunks then [SceneAct.add nm] else []) ∧
      alGet key (onGeometry st key nm).1.sectionMeshs =
        (if (key.1, key.2.2) ∈ st.loadedChunks then some nm else none)) ∧
    (alGet key st.sectionMeshs = none →
      (onGeometry st key nm).2 =
        (if (key.1, key.2.2) ∈ st.loadedChunks then [SceneAct.add nm] else [])) ∧
    (y ∈ columnYs → alGet ((x, y, z) : Key) st.sectionMeshs = some m →
      SceneAct.dispose m ∈ (removeColumn st x z).2 ∧
      alGet ((x, y, z) : Key) (removeColumn st x z).1.sectionMeshs = none) ∧
    ((resetWorld st).1.sectionMeshs = [] ∧
     (resetWorld st).2 = st.sectionMeshs.map (fun kv => SceneAct.remove kv.2) ∧
     ∀ mm, SceneAct.dispose mm ∉ (resetWorld st).2) := by
  refine ⟨?_, ?_, ?_, rfl, rfl, ?_⟩
  · intro hm
    unfold onGeometry
    by_cases hl : (key.1, key.2.2) ∈ st.loadedChunks <;>
      simp [hm, hl, alGet_alSet_self, alGet_alRemove_self]
  · intro hm
    unfold onGeometry
    by_cases hl : (key.1, key.2.2) ∈ st.loadedChunks <;> simp [hm, hl]
  · intro hy hm
    have hrc : removeColumn st x z = columnYs.foldl (removeColumnSlice x z)
        ({ st with loadedChunks := setRemove (x, z) st.loadedChunks }, []) := rfl
    rw [hrc]
    exact rcGo_main x z columnYs _ y m hy hm
  · intro mm hmem
    rw [show (resetWorld st).2 = st.sectionMeshs.map (fun kv => SceneAct.remove kv.2)
      from rfl] at hmem
    rcases List.mem_map.mp hmem with ⟨kv, -, habs⟩
    exact SceneAct.noConfusion habs

/-- C8 witness: `removeColumn` on the dispatcher `rsMesh` (mesh `5` displayed
for section `(0,0,0)` of column `(0,0)`) disposes mesh `5` and clears the
table entry. -/
theorem mesh_disposal_paths_witness :
    SceneAct.dispose 5 ∈ (removeColumn rsMesh 0 0).2 ∧
    alGet ((0, 0, 0) : Key) (removeColumn rsMesh 0 0).1.sectionMeshs = none :=
  (mesh_disposal_paths rsMesh (0, 0, 0) 9 5 0 0 0).2.2.1 (by decide) rfl

end PViewer
